import Mathlib

/-!
Verification of the fork-choice core of the prysm beacon-chain client
against its natural-language specification.

The development shallowly embeds the Go sources:

* `beacon-chain/forkchoice/protoarray/store.go` — the `ForkChoice` layer
  (`New`, `Head`, `ProcessAttestation`, `ProcessBlock`, the duplicated
  `Prune`), embedded in namespace `Protoarray`.  The bodies of the store
  internals (`computeDeltas`, `applyWeightChanges`, `head`, `prune`) are not
  part of the provided sources; they are modelled from spec §4.1–§4.5 and
  marked as such in their doc comments.
* `beacon-chain/blockchain/forkchoice/metrics.go` — `reportEpochMetrics`,
  embedded in namespace `Metrics` as a pure function from a beacon state to
  the list of gauge settings it emits (gauge name, integer value), with the
  early return on a failed balance lookup modelled by `Option`.
* the validator slashing-protection helpers `markAttestationForTargetEpoch`
  and `safeTargetToSource` (validator client `attester.go`, included in the
  provided sources), embedded in namespace `Slashing`.  Go `uint64`/`int`
  arithmetic is modelled by `Nat`/`Int` with explicit wrap-around at 2^64 /
  2^63 where the code converts.

Machine integers: Go `uint64` is modelled as `Nat` (no operation in the
embedded code overflows except where an explicit `% 2^64` appears), 32-byte
roots as `Nat` (their big-endian integer value; the zero hash is `0`), Go
maps as association lists, Go `int`/`int64` conversions as the explicit
signed reinterpretation `toInt64`.
-/

namespace Protoarray

/-- A 32-byte block root, identified with its big-endian integer value. -/
abbrev Root := Nat

/-- `params.BeaconConfig().ZeroHash`: the all-zero root. -/
def zeroHash : Root := 0

/-- Vote record of one validator (store.go `Vote`, spec §3). -/
structure Vote where
  currentRoot : Root
  nextRoot : Root
  nextEpoch : Nat
deriving DecidableEq

/-- Block node of the proto-array store (spec §3). -/
structure Node where
  slot : Nat
  root : Root
  parent : Option Nat
  justifiedEpoch : Nat
  finalizedEpoch : Nat
  weight : Int
  bestChild : Option Nat
  bestDescendant : Option Nat
deriving DecidableEq

/-- The proto-array store (store.go `Store`, fields as used by `New`).
The Go `map[[32]byte]uint64` node-index map is modelled as an association
list whose most recent binding wins. -/
structure Store where
  justifiedEpoch : Nat
  finalizedEpoch : Nat
  finalizedRoot : Root
  nodes : List Node
  nodeIndices : List (Root × Nat)
  pruneThreshold : Nat
deriving DecidableEq

/-- The ForkChoice layer (store.go `ForkChoice`). -/
structure ForkChoice where
  store : Store
  balances : List Nat
  votes : List Vote
deriving DecidableEq

/-- Error taxonomy of the store operations (spec §7). -/
inductive FCError where
  | deltaLengthMismatch
  | negativeWeight
  | unknownJustifiedRoot
  | invalidBestDescendant
  | unknownFinalizedRoot
deriving DecidableEq

/-- store.go line 13: minimal number of nodes before pruning. -/
def defaultPruneThreshold : Nat := 256

/-- store.go lines 19–33: `New` initializes a fork choice store. -/
def New (justifiedEpoch finalizedEpoch : Nat) (finalizedRoot : Root) : ForkChoice :=
  { store :=
      { justifiedEpoch := justifiedEpoch
        finalizedEpoch := finalizedEpoch
        finalizedRoot := finalizedRoot
        nodes := []
        nodeIndices := []
        pruneThreshold := defaultPruneThreshold }
    balances := []
    votes := [] }

/-- The zero-initialised vote appended by vote-cache growth
(store.go line 67: both roots are `ZeroHash`, epoch is the zero value). -/
def zeroVote : Vote := ⟨zeroHash, zeroHash, 0⟩

/-- store.go lines 66–68: the `for index >= len(f.votes)` growth loop;
appends `zeroVote` until `index` is inside the vector. -/
def growVotes (votes : List Vote) (index : Nat) : List Vote :=
  votes ++ List.replicate (index + 1 - votes.length) zeroVote

/-- store.go lines 64–79: the body of the `ProcessAttestation` loop for one
validator index: grow the vote vector, then update the vote iff it is
"newly allocated" (both root fields still `ZeroHash`) or the target epoch
is strictly larger than the recorded next epoch. -/
def updateVote (blockRoot : Root) (targetEpoch : Nat) (votes : List Vote) (index : Nat) :
    List Vote :=
  let grown := growVotes votes index
  let v := grown.getD index zeroVote
  if (v.nextRoot = zeroHash ∧ v.currentRoot = zeroHash) ∨ targetEpoch > v.nextEpoch then
    grown.set index { v with nextEpoch := targetEpoch, nextRoot := blockRoot }
  else
    grown

/-- The vote-vector transformer of `ProcessAttestation`: fold `updateVote`
over the listed validator indices in order (store.go line 64). -/
def pa (blockRoot : Root) (targetEpoch : Nat) (votes : List Vote) (l : List Nat) : List Vote :=
  l.foldl (updateVote blockRoot targetEpoch) votes

/-- store.go lines 60–82: `ProcessAttestation` iterates over the validator
indices and updates their votes; only the vote vector changes. -/
def ProcessAttestation (f : ForkChoice) (validatorIndices : List Nat) (blockRoot : Root)
    (targetEpoch : Nat) : ForkChoice :=
  { f with votes := pa blockRoot targetEpoch f.votes validatorIndices }

/-- Modelled from the spec: `compute_deltas` (§4.2), whose body is not in the
provided sources.  Deltas start as zeros of length `len(indices_map)`; for
each validator up to `max(len(votes), len(new_balances))` whose vote moved or
whose balance changed, its old balance is subtracted at the index of its
current root and its new balance added at the index of its next root, the
lookups silently skipping unknown roots; every returned vote is promoted
(`current_root ← next_root`).  Missing balances are treated as zero, so the
operation is total. -/
def computeDeltas (indices : List (Root × Nat)) (votes : List Vote)
    (oldBalances newBalances : List Nat) : List Int × List Vote :=
  let count := max votes.length newBalances.length
  let deltas := (List.range count).foldl
    (fun ds v =>
      let vote := votes.getD v zeroVote
      let ob : Int := oldBalances.getD v 0
      let nb : Int := newBalances.getD v 0
      if vote.currentRoot ≠ vote.nextRoot ∨ ob ≠ nb then
        let ds := match indices.lookup vote.currentRoot with
          | some i => ds.set i (ds.getD i 0 - ob)
          | none => ds
        match indices.lookup vote.nextRoot with
          | some i => ds.set i (ds.getD i 0 + nb)
          | none => ds
      else ds)
    (List.replicate indices.length (0 : Int))
  let newVotes := (List.range count).map
    (fun v =>
      let vote := votes.getD v zeroVote
      { vote with currentRoot := vote.nextRoot })
  (deltas, newVotes)

/-- Modelled from the spec: viability of a node (§4.4): its justified and
finalized epochs match the store's, or the store has no finalized checkpoint
yet (genesis). -/
def viableForHead (s : Store) (n : Node) : Bool :=
  (n.justifiedEpoch == s.justifiedEpoch && n.finalizedEpoch == s.finalizedEpoch) ||
    (s.justifiedEpoch == 0 && s.finalizedEpoch == 0)

/-- Modelled from the spec: the best-child/best-descendant transition table of
§4.4, re-evaluating whether child `c` should become parent `p`'s best child. -/
def updateBestChildAndDescendant (s : Store) (nodes : List Node) (p c : Nat) : List Node :=
  match nodes[p]?, nodes[c]? with
  | some pn, some cn =>
    let cViable := viableForHead s cn
    let cDesc := cn.bestDescendant.getD c
    match pn.bestChild with
    | none =>
      if cViable then
        nodes.set p { pn with bestChild := some c, bestDescendant := some cDesc }
      else nodes
    | some b =>
      let bViable := match nodes[b]? with
        | some bn => viableForHead s bn
        | none => false
      let bDesc := match nodes[b]? with
        | some bn => bn.bestDescendant.getD b
        | none => b
      let wOf := fun i => ((nodes[i]?).map Node.weight).getD 0
      let rOf := fun i => ((nodes[i]?).map Node.root).getD 0
      if bViable && cViable then
        if wOf cDesc > wOf bDesc ∨ (wOf cDesc = wOf bDesc ∧ rOf cDesc > rOf bDesc) then
          nodes.set p { pn with bestChild := some c, bestDescendant := some cDesc }
        else nodes
      else if cViable then
        nodes.set p { pn with bestChild := some c, bestDescendant := some cDesc }
      else if bViable then
        nodes
      else
        nodes.set p { pn with bestChild := none, bestDescendant := none }
  | _, _ => nodes

/-- Modelled from the spec: one step of `apply_weight_changes` (§4.1) at node
index `i`: add the accumulated delta to the node's weight (failing if the
result is negative), propagate the delta to the parent's slot, and
re-evaluate the parent's best child considering this node. -/
def awcStep (s : Store) (st : List Node × List Int) (i : Nat) :
    Except FCError (List Node × List Int) :=
  match st.1[i]? with
  | none => .ok st
  | some nd =>
    let d := st.2.getD i 0
    let w := nd.weight + d
    if w < 0 then .error .negativeWeight
    else
      let nodes := st.1.set i { nd with weight := w }
      match nd.parent with
      | none => .ok (nodes, st.2)
      | some p =>
        .ok (updateBestChildAndDescendant s nodes p i, st.2.set p (st.2.getD p 0 + d))

/-- Modelled from the spec: `apply_weight_changes` (§4.1), whose body is not
in the provided sources.  Raises the store's justified/finalized epochs if
higher, fails on a delta-vector length mismatch, then walks the nodes in
descending index order applying `awcStep`. -/
def applyWeightChanges (s : Store) (justifiedEpoch finalizedEpoch : Nat) (deltas : List Int) :
    Except FCError Store :=
  if deltas.length ≠ s.nodes.length then .error .deltaLengthMismatch
  else
    let s' := { s with
      justifiedEpoch := max s.justifiedEpoch justifiedEpoch
      finalizedEpoch := max s.finalizedEpoch finalizedEpoch }
    match (List.range s'.nodes.length).reverse.foldlM (awcStep s') (s'.nodes, deltas) with
    | .error e => .error e
    | .ok st => .ok { s' with nodes := st.1 }

/-- Modelled from the spec: `head(justified_root)` (§4.3): look the justified
root up, follow its best descendant (defaulting to itself), and return that
node's root after checking viability. -/
def shead (s : Store) (justifiedRoot : Root) : Except FCError Root :=
  match s.nodeIndices.lookup justifiedRoot with
  | none => .error .unknownJustifiedRoot
  | some i =>
    match s.nodes[i]? with
    | none => .error .unknownJustifiedRoot
    | some jn =>
      let bd := jn.bestDescendant.getD i
      match s.nodes[bd]? with
      | none => .error .invalidBestDescendant
      | some bn =>
        if viableForHead s bn then .ok bn.root else .error .invalidBestDescendant

/-- store.go lines 37–56: `Head` computes deltas from the justified-state
balances, swaps in the promoted vote vector, applies the weight changes
(swapping in the new balance snapshot on success), and finally selects the
head.  The returned pair is (result, post-call ForkChoice state); the Go
method mutates its receiver. -/
def Head (f : ForkChoice) (finalizedEpoch : Nat) (justifiedRoot : Root)
    (justifiedStateBalances : List Nat) (justifiedEpoch : Nat) :
    Except FCError Root × ForkChoice :=
  let newBalances := justifiedStateBalances
  let dv := computeDeltas f.store.nodeIndices f.votes f.balances newBalances
  let f1 : ForkChoice := { f with votes := dv.2 }
  match applyWeightChanges f1.store justifiedEpoch finalizedEpoch dv.1 with
  | .error e => (.error e, f1)
  | .ok s =>
    let f2 : ForkChoice := { f1 with store := s, balances := newBalances }
    match shead s justifiedRoot with
    | .error e => (.error e, f2)
    | .ok r => (.ok r, f2)

/-- Children of node `j`, recovered by scanning parent pointers (spec §4.5). -/
def childrenOf (nodes : List Node) (j : Nat) : List Nat :=
  (List.range nodes.length).filter fun i => ((nodes[i]?).bind Node.parent) == some j

/-- Fuelled breadth-first walk used by `sprune`; the fuel (number of nodes)
bounds the number of dequeues, which in a well-formed tree visits every
retained node exactly once. -/
def bfsAux (children : Nat → List Nat) : Nat → List Nat → List Nat → List Nat
  | 0, _, acc => acc
  | _ + 1, [], acc => acc
  | fuel + 1, q :: qs, acc => bfsAux children fuel (qs ++ children q) (acc ++ [q])

/-- Modelled from the spec: `store.prune` (§4.5), whose body is not in the
provided sources.  No-op when the root equals the current finalized root or
the node count is at most the prune threshold; otherwise keeps the subtree of
the new finalized root (breadth-first, the new root first), renumbers the
indices through a remap table, rebuilds the root→index map and installs the
new finalized root. -/
def sprune (s : Store) (newFinalizedRoot : Root) : Except FCError Store :=
  if newFinalizedRoot = s.finalizedRoot ∨ s.nodes.length ≤ s.pruneThreshold then .ok s
  else
    match s.nodeIndices.lookup newFinalizedRoot with
    | none => .error .unknownFinalizedRoot
    | some k =>
      let kept := bfsAux (childrenOf s.nodes) s.nodes.length [k] []
      let remap : Nat → Option Nat := fun i => kept.indexOf? i
      let nodes' := kept.filterMap fun i =>
        (s.nodes[i]?).map fun nd =>
          { nd with
            parent := nd.parent.bind remap
            bestChild := nd.bestChild.bind remap
            bestDescendant := nd.bestDescendant.bind remap }
      let indices' := nodes'.enum.map fun p => (p.2.root, p.1)
      .ok { s with
        nodes := nodes'
        nodeIndices := indices'
        finalizedRoot := newFinalizedRoot
        finalizedEpoch := ((s.nodes[k]?).map Node.finalizedEpoch).getD s.finalizedEpoch }

/-- store.go lines 94–96: the first `Prune` definition, delegating to the
store-level prune with unchanged arguments. -/
def Prune (f : ForkChoice) (finalizedRoot : Root) : Except FCError ForkChoice :=
  (sprune f.store finalizedRoot).map fun s => { f with store := s }

/-- store.go lines 98–100: the second, textually identical `Prune`
definition (the merge artefact noted in spec §9). -/
def PruneDup (f : ForkChoice) (finalizedRoot : Root) : Except FCError ForkChoice :=
  (sprune f.store finalizedRoot).map fun s => { f with store := s }

end Protoarray

/-- `params.BeaconConfig().FarFutureEpoch`: the largest `uint64` value. -/
def farFutureEpoch : Nat := 2 ^ 64 - 1

/-- Go's conversion of a `uint64` value to `int` (64-bit, signed
reinterpretation). -/
def toInt64 (x : Nat) : Int := if x < 2 ^ 63 then (x : Int) else (x : Int) - 2 ^ 64

/-- Wrap-around of Go 64-bit signed integer arithmetic. -/
def wrapInt64 (x : Int) : Int := (x + 2 ^ 63) % 2 ^ 64 - 2 ^ 63

namespace Metrics

/-- `SLOTS_PER_EPOCH` (spec glossary). -/
def slotsPerEpoch : Nat := 32

/-- The fields of `ethpb.Validator` read by `reportEpochMetrics`. -/
structure Validator where
  slashed : Bool
  activationEpoch : Nat
  exitEpoch : Nat
  effectiveBalance : Nat
deriving DecidableEq

/-- An `ethpb.Checkpoint`: an epoch and a root given as its byte slice. -/
structure Checkpoint where
  epoch : Nat
  root : List Nat
deriving DecidableEq

/-- The `DepositCount` field of `ethpb.Eth1Data`. -/
structure Eth1Data where
  depositCount : Nat
deriving DecidableEq

/-- The fields of the beacon state read by `reportEpochMetrics`; the
checkpoint and eth1-data getters may return nil, modelled by `Option`. -/
structure BeaconState where
  slot : Nat
  validators : List Validator
  balances : List Nat
  currentJustifiedCheckpoint : Option Checkpoint
  previousJustifiedCheckpoint : Option Checkpoint
  finalizedCheckpoint : Option Checkpoint
  eth1Data : Option Eth1Data
deriving DecidableEq

/-- `helpers.CurrentEpoch`: the slot's epoch. -/
def currentEpoch (s : BeaconState) : Nat := s.slot / slotsPerEpoch

/-- The counters accumulated by the validator loop of `reportEpochMetrics`
(metrics.go lines 72–85). -/
structure Counts where
  pending : Nat
  active : Nat
  exiting : Nat
  exited : Nat
  slashing : Nat
  slashed : Nat
  pendingBalance : Nat
  activeBalance : Nat
  exitingBalance : Nat
  slashingBalance : Nat
  activeEffective : Nat
  exitingEffective : Nat
  slashingEffective : Nat
deriving DecidableEq

/-- All counters start at zero (metrics.go lines 72–85). -/
def initCounts : Counts := ⟨0, 0, 0, 0, 0, 0, 0, 0, 0, 0, 0, 0, 0⟩

/-- metrics.go lines 94–121: classification of one validator, incrementing
exactly one of the six instance counters and the matching balance sums. -/
def tallyUpdate (ce : Nat) (c : Counts) (v : Validator) (bal : Nat) : Counts :=
  if v.slashed then
    if ce < v.exitEpoch then
      { c with slashing := c.slashing + 1
               slashingBalance := c.slashingBalance + bal
               slashingEffective := c.slashingEffective + v.effectiveBalance }
    else
      { c with slashed := c.slashed + 1 }
  else if v.exitEpoch ≠ farFutureEpoch then
    if ce < v.exitEpoch then
      { c with exiting := c.exiting + 1
               exitingBalance := c.exitingBalance + bal
               exitingEffective := c.exitingEffective + v.effectiveBalance }
    else
      { c with exited := c.exited + 1 }
  else if ce < v.activationEpoch then
    { c with pending := c.pending + 1, pendingBalance := c.pendingBalance + bal }
  else
    { c with active := c.active + 1
             activeBalance := c.activeBalance + bal
             activeEffective := c.activeEffective + v.effectiveBalance }

/-- metrics.go lines 88–122: the `for i, validator := range validators` loop;
a failed `BalanceAtIndex` lookup makes the whole function return early,
modelled by `none`. -/
def tallyGo (ce : Nat) (balances : List Nat) : List Validator → Nat → Counts → Option Counts
  | [], _, c => some c
  | v :: vs, i, c =>
    match balances[i]? with
    | none => none
    | some bal => tallyGo ce balances vs (i + 1) (tallyUpdate ce c v bal)

/-- The validator tally of `reportEpochMetrics`, starting from index 0 and
zero counters. -/
def tallyValidators (s : BeaconState) : Option Counts :=
  tallyGo (currentEpoch s) s.balances s.validators 0 initCounts

/-- Modelled from the spec: `bytesutil.ToLowInt64`, whose body is not in the
provided sources — "beacon_finalized_root (low-64-bit of root)" (spec §6):
the first eight bytes of the root read little-endian, reinterpreted as a
signed 64-bit integer. -/
def bytesToLowInt64 (bytes : List Nat) : Int :=
  toInt64 ((bytes.take 8).reverse.foldl (fun acc b => acc * 256 + b % 256) 0)

/-- The pair of gauge settings emitted for one present checkpoint
(metrics.go lines 138–151). -/
def checkpointGauges (epochName rootName : String) (c : Option Checkpoint) :
    List (String × Int) :=
  match c with
  | none => []
  | some cp => [(epochName, (cp.epoch : Int)), (rootName, bytesToLowInt64 cp.root)]

/-- metrics.go lines 68–160: `reportEpochMetrics` as the list of gauge
settings (gauge name with its label, integer value) it emits, in program
order; `none` when the function returns early on a failed balance lookup.
The six `validator_count` gauges come first, then the balance and
effective-balance gauges, then the checkpoint gauges (each emitted only when
the checkpoint is non-nil), then the eth1 deposit count. -/
def reportEpochMetrics (s : BeaconState) : Option (List (String × Int)) :=
  (tallyValidators s).map fun c =>
    [("validator_count/Pending", (c.pending : Int)),
     ("validator_count/Active", (c.active : Int)),
     ("validator_count/Exiting", (c.exiting : Int)),
     ("validator_count/Exited", (c.exited : Int)),
     ("validator_count/Slashing", (c.slashing : Int)),
     ("validator_count/Slashed", (c.slashed : Int)),
     ("validators_total_balance/Pending", (c.pendingBalance : Int)),
     ("validators_total_balance/Active", (c.activeBalance : Int)),
     ("validators_total_balance/Exiting", (c.exitingBalance : Int)),
     ("validators_total_balance/Slashing", (c.slashingBalance : Int)),
     ("validators_total_effective_balance/Active", (c.activeEffective : Int)),
     ("validators_total_effective_balance/Exiting", (c.exitingEffective : Int)),
     ("validators_total_effective_balance/Slashing", (c.slashingEffective : Int))]
    ++ checkpointGauges "beacon_current_justified_epoch" "beacon_current_justified_root"
        s.currentJustifiedCheckpoint
    ++ checkpointGauges "beacon_previous_justified_epoch" "beacon_previous_justified_root"
        s.previousJustifiedCheckpoint
    ++ checkpointGauges "beacon_finalized_epoch" "beacon_finalized_root"
        s.finalizedCheckpoint
    ++ (match s.eth1Data with
        | none => []
        | some e => [("current_eth1_data_deposit_count", (e.depositCount : Int))])

end Metrics

namespace Slashing

/-- `slashpb.AttestationHistory`: the `TargetToSource` map (a Go
`map[uint64]uint64`, modelled as an association list whose most recent
binding wins and whose missing keys read as the zero value) together with
the latest epoch written. -/
structure AttestationHistory where
  targetToSource : List (Nat × Nat)
  latestEpochWritten : Nat
deriving DecidableEq

/-- Go map assignment `m[k] = v`. -/
def mapWrite (m : List (Nat × Nat)) (k v : Nat) : List (Nat × Nat) := (k, v) :: m

/-- Go map read `m[k]` (zero value when the key is absent). -/
def mapRead (m : List (Nat × Nat)) (k : Nat) : Nat := (m.lookup k).getD 0

/-- attester.go lines 848–862: `markAttestationForTargetEpoch`.  When the
target epoch is ahead of the latest written epoch, the epochs in between
(up to one weak-subjectivity period `ws` ahead, `maxToWrite` computed with
`uint64` wrap-around) are marked `FAR_FUTURE_EPOCH` and the latest written
epoch is advanced; finally the target's slot is set to the source epoch.
The Go `for i := LEW+1; i < target && i <= maxToWrite; i++` loop visits
exactly the range `[LEW+1, min (target-1) maxToWrite]`. -/
def markAttestationForTargetEpoch (ws : Nat) (history : AttestationHistory)
    (sourceEpoch targetEpoch : Nat) : AttestationHistory :=
  let h1 :=
    if targetEpoch > history.latestEpochWritten then
      let maxToWrite := (history.latestEpochWritten + ws) % 2 ^ 64
      let count := min (targetEpoch - 1) maxToWrite + 1 - (history.latestEpochWritten + 1)
      let tts := (List.range' (history.latestEpochWritten + 1) count).foldl
        (fun m i => mapWrite m (i % ws) farFutureEpoch) history.targetToSource
      { history with targetToSource := tts, latestEpochWritten := targetEpoch }
    else history
  { h1 with targetToSource := mapWrite h1.targetToSource (targetEpoch % ws) sourceEpoch }

/-- attester.go lines 866–872: `safeTargetToSource` returns
`FAR_FUTURE_EPOCH` when the requested target epoch is out of bounds
(the bound check converts both sides through Go `int`, with 64-bit
wrap-around in the subtraction), and the recorded source epoch otherwise. -/
def safeTargetToSource (ws : Nat) (history : AttestationHistory) (targetEpoch : Nat) : Nat :=
  if targetEpoch > history.latestEpochWritten ∨
      toInt64 targetEpoch < wrapInt64 (toInt64 history.latestEpochWritten - toInt64 ws) then
    farFutureEpoch
  else
    mapRead history.targetToSource (targetEpoch % ws)

end Slashing

/-- Decidable equality for `Except` results, used to evaluate concrete runs. -/
instance {ε α : Type} [DecidableEq ε] [DecidableEq α] : DecidableEq (Except ε α) :=
  fun a b =>
    match a, b with
    | .error e, .error e' => decidable_of_iff (e = e') (by simp)
    | .ok x, .ok y => decidable_of_iff (x = y) (by simp)
    | .error _, .ok _ => isFalse (by simp)
    | .ok _, .error _ => isFalse (by simp)

namespace Protoarray

/-- Claim C1 as stated: whenever `Head` returns an error, both the vote
vector and the balance snapshot are unchanged from their pre-call values. -/
def ClaimC1 : Prop :=
  ∀ (f : ForkChoice) (fe : Nat) (jr : Root) (bal : List Nat) (je : Nat) (e : FCError),
    (Head f fe jr bal je).1 = .error e →
    (Head f fe jr bal je).2.votes = f.votes ∧ (Head f fe jr bal je).2.balances = f.balances

/-- Concrete ForkChoice refuting C1: one node of weight 0, one vote moving
away from it, equal balances; `applyWeightChanges` fails on the negative
weight after `Head` has already swapped the promoted vote vector in. -/
def fcC1 : ForkChoice :=
  ⟨⟨0, 0, 0, [⟨0, 1, none, 0, 0, 0, none, none⟩], [(1, 0)], 256⟩, [5], [⟨1, 2, 1⟩]⟩

/-- Claim C2 as stated: the vote entry of a listed index ends with
`nextRoot = blockRoot` and `nextEpoch = targetEpoch` iff the vote is newly
allocated **by this call** (the index was beyond the old vector) or the
target epoch is strictly greater than the recorded next epoch, and in every
other case the entry is left unchanged. -/
def ClaimC2 : Prop :=
  ∀ (f : ForkChoice) (l : List Nat) (r : Root) (t : Nat), ∀ i ∈ l,
    ((((ProcessAttestation f l r t).votes.getD i zeroVote).nextRoot = r ∧
        ((ProcessAttestation f l r t).votes.getD i zeroVote).nextEpoch = t) ↔
      (f.votes.length ≤ i ∨ t > (f.votes.getD i zeroVote).nextEpoch)) ∧
    (¬(f.votes.length ≤ i ∨ t > (f.votes.getD i zeroVote).nextEpoch) →
      (ProcessAttestation f l r t).votes.getD i zeroVote = f.votes.getD i zeroVote)

/-- Concrete ForkChoice refuting C2: its single vote entry is zero-rooted
but was allocated before the call. -/
def fcC2 : ForkChoice := ⟨(New 0 0 0).store, [], [⟨0, 0, 0⟩]⟩

/-- Concrete ForkChoice for the C5 witness: two pre-existing votes. -/
def fcC5 : ForkChoice := ⟨(New 0 0 0).store, [], [⟨1, 2, 3⟩, ⟨0, 0, 0⟩]⟩

/-- Claim C3 as stated: after `ProcessAttestation` for validator `v` with
root `r` and epoch `e`, a later call for `v` with any root and a strictly
smaller epoch leaves `v`'s vote entry unchanged. -/
def ClaimC3 : Prop :=
  ∀ (f : ForkChoice) (v : Nat) (r r' : Root) (e e' : Nat), e' < e →
    (ProcessAttestation (ProcessAttestation f [v] r e) [v] r' e').votes.getD v zeroVote =
      (ProcessAttestation f [v] r e).votes.getD v zeroVote

end Protoarray

namespace Metrics

/-- Claim C8 as stated: for every beacon state whose finalized checkpoint is
present, `reportEpochMetrics` emits the finalized epoch/root gauges from
that checkpoint (the root as its low 64 bits), and analogously the
current-justified and previous-justified gauges from their checkpoints. -/
def ClaimC8 : Prop :=
  ∀ (s : BeaconState) (cp : Checkpoint), s.finalizedCheckpoint = some cp →
    ∃ out, reportEpochMetrics s = some out ∧
      ("beacon_finalized_epoch", (cp.epoch : Int)) ∈ out ∧
      ("beacon_finalized_root", bytesToLowInt64 cp.root) ∈ out ∧
      (∀ cj, s.currentJustifiedCheckpoint = some cj →
        ("beacon_current_justified_epoch", (cj.epoch : Int)) ∈ out ∧
        ("beacon_current_justified_root", bytesToLowInt64 cj.root) ∈ out) ∧
      (∀ pj, s.previousJustifiedCheckpoint = some pj →
        ("beacon_previous_justified_epoch", (pj.epoch : Int)) ∈ out ∧
        ("beacon_previous_justified_root", bytesToLowInt64 pj.root) ∈ out)

/-- Concrete beacon state refuting C8: one validator but an empty balance
list, so the balance lookup fails and `reportEpochMetrics` returns early
without emitting any gauge, although the finalized checkpoint is present. -/
def stC8 : BeaconState :=
  ⟨0, [⟨false, 0, farFutureEpoch, 0⟩], [], none, none, some ⟨0, []⟩, none⟩

/-- Concrete beacon state for the C8 witness: no validators, all three
checkpoints present. -/
def stC8w : BeaconState := ⟨0, [], [], some ⟨3, [2]⟩, some ⟨2, []⟩, some ⟨1, [255]⟩, none⟩

/-- The gauge list emitted on `stC8w`. -/
def outC8w : List (String × Int) := (reportEpochMetrics stC8w).getD []

/-- The sum of the six validator-instance counters. -/
def countSum (c : Counts) : Nat :=
  c.pending + c.active + c.exiting + c.exited + c.slashing + c.slashed

/-- Concrete beacon state for the C9 witness: one active and one slashing
validator. -/
def stC9 : BeaconState :=
  ⟨0, [⟨false, 0, farFutureEpoch, 32⟩, ⟨true, 0, 5, 32⟩], [7, 7], none, none, none, none⟩

/-- The gauge list emitted on `stC9`. -/
def outC9 : List (String × Int) := (reportEpochMetrics stC9).getD []

end Metrics

namespace Slashing

/-- Claim C10 as stated: for every weak-subjectivity period, history and
epoch pair with `targetEpoch ≥ LatestEpochWritten - wsPeriod` (as integers),
marking the attestation and then looking the target epoch up returns the
source epoch, and in particular no longer `FAR_FUTURE_EPOCH`. -/
def ClaimC10 : Prop :=
  ∀ (ws : Nat), 0 < ws → ∀ (h : AttestationHistory) (sourceEpoch targetEpoch : Nat),
    (h.latestEpochWritten : Int) - (ws : Int) ≤ (targetEpoch : Int) →
    safeTargetToSource ws (markAttestationForTargetEpoch ws h sourceEpoch targetEpoch)
        targetEpoch = sourceEpoch ∧
    safeTargetToSource ws (markAttestationForTargetEpoch ws h sourceEpoch targetEpoch)
        targetEpoch ≠ farFutureEpoch

end Slashing

namespace Protoarray

theorem growVotes_getD (votes : List Vote) (i j : Nat) :
    (growVotes votes i).getD j zeroVote = votes.getD j zeroVote := by
  unfold growVotes
  rcases Nat.lt_or_ge j votes.length with h | h
  · rw [List.getD_append _ _ _ _ h]
  · rw [List.getD_append_right _ _ _ _ h, List.getD_eq_default _ _ h]
    rcases Nat.lt_or_ge (j - votes.length)
        (List.replicate (i + 1 - votes.length) zeroVote).length with h2 | h2
    · rw [List.getD_eq_getElem _ _ h2, List.getElem_replicate]
    · rw [List.getD_eq_default _ _ h2]

theorem growVotes_length (votes : List Vote) (i : Nat) :
    (growVotes votes i).length = max votes.length (i + 1) := by
  simp only [growVotes, List.length_append, List.length_replicate]
  omega

theorem updateVote_length (r : Root) (t : Nat) (votes : List Vote) (i : Nat) :
    (updateVote r t votes i).length = max votes.length (i + 1) := by
  simp only [updateVote]
  split
  · rw [List.length_set, growVotes_length]
  · rw [growVotes_length]

theorem updateVote_getD_ne (r : Root) (t : Nat) (votes : List Vote) (i j : Nat) (h : j ≠ i) :
    (updateVote r t votes i).getD j zeroVote = votes.getD j zeroVote := by
  simp only [updateVote]
  split
  · rw [List.getD_eq_getElem?_getD, List.getElem?_set, if_neg (Ne.symm h),
      ← List.getD_eq_getElem?_getD, growVotes_getD]
  · exact growVotes_getD votes i j

theorem updateVote_getD_self (r : Root) (t : Nat) (votes : List Vote) (i : Nat) :
    (updateVote r t votes i).getD i zeroVote =
      if ((votes.getD i zeroVote).nextRoot = zeroHash ∧
            (votes.getD i zeroVote).currentRoot = zeroHash) ∨
          t > (votes.getD i zeroVote).nextEpoch then
        ⟨(votes.getD i zeroVote).currentRoot, r, t⟩
      else votes.getD i zeroVote := by
  have hlen : i < (growVotes votes i).length := by
    rw [growVotes_length]; omega
  simp only [updateVote, growVotes_getD]
  split
  · rw [List.getD_eq_getElem?_getD, List.getElem?_set, if_pos rfl, if_pos hlen]
    rfl
  · exact growVotes_getD votes i i

theorem pa_cons (r : Root) (t : Nat) (votes : List Vote) (i : Nat) (l : List Nat) :
    pa r t votes (i :: l) = pa r t (updateVote r t votes i) l := rfl

theorem pa_getD (r : Root) (t : Nat) (l : List Nat) (votes : List Vote) (j : Nat) :
    (pa r t votes l).getD j zeroVote =
      if j ∈ l ∧ (((votes.getD j zeroVote).nextRoot = zeroHash ∧
            (votes.getD j zeroVote).currentRoot = zeroHash) ∨
          t > (votes.getD j zeroVote).nextEpoch) then
        ⟨(votes.getD j zeroVote).currentRoot, r, t⟩
      else votes.getD j zeroVote := by
  induction l generalizing votes with
  | nil => simp [pa]
  | cons i l ih =>
    rw [pa_cons, ih]
    by_cases hj : j = i
    · subst hj
      rw [updateVote_getD_self]
      by_cases hw : ((votes.getD j zeroVote).nextRoot = zeroHash ∧
          (votes.getD j zeroVote).currentRoot = zeroHash) ∨
          t > (votes.getD j zeroVote).nextEpoch
      · have hmem : j ∈ j :: l ∧ (((votes.getD j zeroVote).nextRoot = zeroHash ∧
            (votes.getD j zeroVote).currentRoot = zeroHash) ∨
            t > (votes.getD j zeroVote).nextEpoch) :=
          And.intro (List.mem_cons_self j l) hw
        rw [if_pos hw, if_pos hmem]
        split
        · rfl
        · rfl
      · have h1 : ¬(j ∈ l ∧ (((votes.getD j zeroVote).nextRoot = zeroHash ∧
            (votes.getD j zeroVote).currentRoot = zeroHash) ∨
            t > (votes.getD j zeroVote).nextEpoch)) := fun hc => hw hc.2
        have h2 : ¬(j ∈ j :: l ∧ (((votes.getD j zeroVote).nextRoot = zeroHash ∧
            (votes.getD j zeroVote).currentRoot = zeroHash) ∨
            t > (votes.getD j zeroVote).nextEpoch)) := fun hc => hw hc.2
        rw [if_neg hw, if_neg h1, if_neg h2]
    · rw [updateVote_getD_ne _ _ _ _ _ hj]
      simp only [List.mem_cons, hj, false_or]

theorem pa_length (r : Root) (t : Nat) (l : List Nat) (votes : List Vote) :
    (pa r t votes l).length =
      max votes.length (l.foldr (fun i m => max (i + 1) m) 0) := by
  induction l generalizing votes with
  | nil => simp [pa]
  | cons i l ih =>
    rw [pa_cons, ih, updateVote_length, List.foldr_cons, max_assoc]

theorem foldr_max_succ (l : List Nat) (h : l ≠ []) :
    l.foldr (fun i m => max (i + 1) m) 0 = l.foldr max 0 + 1 := by
  induction l with
  | nil => exact absurd rfl h
  | cons i l ih =>
    cases l with
    | nil => simp
    | cons a as =>
      simp only [List.foldr_cons]
      have h2 := ih (by simp)
      simp only [List.foldr_cons] at h2
      rw [h2]
      exact Nat.succ_max_succ i _

theorem pa_idem (r : Root) (t : Nat) (votes : List Vote) (l : List Nat) :
    pa r t (pa r t votes l) l = pa r t votes l := by
  apply List.ext_getElem
  · rw [pa_length, pa_length, max_assoc, max_self]
  · intro n h1 h2
    rw [← List.getD_eq_getElem _ zeroVote h1, ← List.getD_eq_getElem _ zeroVote h2,
      pa_getD, pa_getD]
    by_cases hc : n ∈ l ∧ (((votes.getD n zeroVote).nextRoot = zeroHash ∧
        (votes.getD n zeroVote).currentRoot = zeroHash) ∨
        t > (votes.getD n zeroVote).nextEpoch)
    · rw [if_pos hc]
      split
      · rfl
      · rfl
    · rw [if_neg hc, if_neg hc]

/-- C6: `New justifiedEpoch finalizedEpoch finalizedRoot` returns a ForkChoice
whose store records exactly those epochs and that root, whose node vector and
root-to-index map are empty, whose prune threshold is 256, and whose balance
and vote vectors are empty. -/
theorem new_initial_state (je fe : Nat) (fr : Root) :
    New je fe fr = ⟨⟨je, fe, fr, [], [], 256⟩, [], []⟩ := rfl

/-- C7: the two textually duplicated `Prune` definitions delegate to the same
store-level prune with unchanged arguments and agree on every ForkChoice
state and finalized root, so exposing a single `Prune` operation preserves
behaviour. -/
theorem prune_definitions_agree (f : ForkChoice) (finalizedRoot : Root) :
    Prune f finalizedRoot = PruneDup f finalizedRoot := rfl

/-- C4: `ProcessAttestation` is idempotent — calling it twice in succession
with the same validator indices, block root and target epoch yields exactly
the same ForkChoice state (in particular the same vote vector) as calling it
once. -/
theorem processAttestation_idempotent (f : ForkChoice) (l : List Nat) (r : Root) (t : Nat) :
    ProcessAttestation (ProcessAttestation f l r t) l r t = ProcessAttestation f l r t := by
  show ForkChoice.mk f.store f.balances (pa r t (pa r t f.votes l) l) =
    ForkChoice.mk f.store f.balances (pa r t f.votes l)
  exact congrArg (ForkChoice.mk f.store f.balances) (pa_idem r t f.votes l)

/-- C2, counterexample: the claim's update condition ("newly allocated by
this call") is refuted by a pre-existing zero-rooted vote entry: on
`fcC2` (one vote slot, all fields zero), `ProcessAttestation` with index 0,
block root 5 and target epoch 0 overwrites the entry although it was not
allocated by this call and the target epoch is not greater than the recorded
next epoch. -/
theorem processAttestation_claim_counterexample : ¬ ClaimC2 := by
  intro h
  have hc := h fcC2 [0] 5 0 0 (by decide)
  exact absurd (hc.1.mp (by decide)) (by decide)

/-- C2, amended: the vote entry of a listed index `i` is set to
`(blockRoot, targetEpoch)` iff the entry's `nextRoot` and `currentRoot` are
both the zero hash (the code's "newly allocated" test) or the target epoch
is strictly greater than the recorded next epoch; in every other case the
entry is left unchanged. -/
theorem processAttestation_update_rule (f : ForkChoice) (l : List Nat) (r : Root) (t : Nat)
    (i : Nat) (hi : i ∈ l) :
    (ProcessAttestation f l r t).votes.getD i zeroVote =
      if ((f.votes.getD i zeroVote).nextRoot = zeroHash ∧
            (f.votes.getD i zeroVote).currentRoot = zeroHash) ∨
          t > (f.votes.getD i zeroVote).nextEpoch then
        ⟨(f.votes.getD i zeroVote).currentRoot, r, t⟩
      else f.votes.getD i zeroVote := by
  have h := pa_getD r t l f.votes i
  simp only [hi, true_and] at h
  exact h

/-- C2, witness: on `fcC2` the amended rule evaluates concretely — the
zero-rooted entry at index 0 is overwritten to `(5, 0)`. -/
theorem processAttestation_update_rule_witness :
    (ProcessAttestation fcC2 [0] 5 0).votes.getD 0 zeroVote = ⟨0, 5, 0⟩ :=
  (processAttestation_update_rule fcC2 [0] 5 0 0 (by decide)).trans (by decide)

/-- C3, counterexample: with block root equal to the zero hash the recorded
vote still looks "newly allocated", so a later lower-epoch vote is not
ignored: after `ProcessAttestation` for validator 0 with root 0 and epoch 5
on a fresh store, a later call with root 7 and epoch 3 changes the entry. -/
theorem vote_monotonicity_counterexample : ¬ ClaimC3 := by
  intro h
  have hc := h (New 0 0 0) 0 0 7 5 3 (by decide)
  exact absurd hc (by decide)

/-- C3, amended: provided the first vote's block root is not the zero hash,
a later `ProcessAttestation` for the same validator with a strictly smaller
target epoch leaves the validator's vote entry unchanged. -/
theorem vote_monotonicity_nonzero_root (f : ForkChoice) (v : Nat) (r r' : Root) (e e' : Nat)
    (hr : r ≠ zeroHash) (he : e' < e) :
    (ProcessAttestation (ProcessAttestation f [v] r e) [v] r' e').votes.getD v zeroVote =
      (ProcessAttestation f [v] r e).votes.getD v zeroVote := by
  have h1 := pa_getD r e [v] f.votes v
  have h2 := pa_getD r' e' [v] (pa r e f.votes [v]) v
  show (pa r' e' (pa r e f.votes [v]) [v]).getD v zeroVote =
    (pa r e f.votes [v]).getD v zeroVote
  simp only [List.mem_singleton, true_and] at h1 h2
  rw [h2, h1]
  by_cases hw : ((f.votes.getD v zeroVote).nextRoot = zeroHash ∧
      (f.votes.getD v zeroVote).currentRoot = zeroHash) ∨
      e > (f.votes.getD v zeroVote).nextEpoch
  · rw [if_pos hw]
    rw [if_neg]
    intro hc
    rcases hc with ⟨hz, -⟩ | hlt
    · exact hr hz
    · have hlt2 : e' > e := hlt
      omega
  · rw [if_neg hw]
    rw [if_neg]
    intro hc
    rcases hc with hz | hlt
    · exact hw (Or.inl hz)
    · have : ¬ e > (f.votes.getD v zeroVote).nextEpoch := fun hgt => hw (Or.inr hgt)
      omega

/-- C3, witness: a concrete run of the amended statement — a first vote with
non-zero root 9 at epoch 5, then a lower-epoch vote with root 4 at epoch 2,
leaves the entry unchanged. -/
theorem vote_monotonicity_nonzero_root_witness :
    (ProcessAttestation (ProcessAttestation (New 0 0 0) [0] 9 5) [0] 4 2).votes.getD 0 zeroVote =
      (ProcessAttestation (New 0 0 0) [0] 9 5).votes.getD 0 zeroVote :=
  vote_monotonicity_nonzero_root (New 0 0 0) 0 9 4 5 2 (by decide) (by decide)

/-- C5: after `ProcessAttestation`, (1) the vote-vector length is the maximum
of its previous length and the largest listed validator index plus one (so
it never decreases), (2) every slot beyond the old length that is not itself
a listed index holds the zero vote (zero roots, epoch zero), and (3) every
slot below the old length whose index is not listed is unchanged. -/
theorem processAttestation_growth (f : ForkChoice) (l : List Nat) (r : Root) (t : Nat) :
    (l ≠ [] →
      (ProcessAttestation f l r t).votes.length = max f.votes.length (l.foldr max 0 + 1)) ∧
    (∀ j, f.votes.length ≤ j → j ∉ l →
      (ProcessAttestation f l r t).votes.getD j zeroVote = zeroVote) ∧
    (∀ j, j < f.votes.length → j ∉ l →
      (ProcessAttestation f l r t).votes.getD j zeroVote = f.votes.getD j zeroVote) := by
  refine ⟨?_, ?_, ?_⟩
  · intro hne
    show (pa r t f.votes l).length = _
    rw [pa_length, foldr_max_succ l hne]
  · intro j hj hmem
    show (pa r t f.votes l).getD j zeroVote = zeroVote
    rw [pa_getD, if_neg (fun hc => hmem hc.1), List.getD_eq_default _ _ hj]
  · intro j hj hmem
    show (pa r t f.votes l).getD j zeroVote = f.votes.getD j zeroVote
    rw [pa_getD, if_neg (fun hc => hmem hc.1)]

/-- C5, witness: on `fcC5` (two pre-existing votes) with listed index 3, the
vector grows to length 4, the grown unlisted slot 2 is the zero vote, and
the old unlisted slot 0 is unchanged. -/
theorem processAttestation_growth_witness :
    (ProcessAttestation fcC5 [3] 8 9).votes.length = max fcC5.votes.length ([3].foldr max 0 + 1) ∧
    (ProcessAttestation fcC5 [3] 8 9).votes.getD 2 zeroVote = zeroVote ∧
    (ProcessAttestation fcC5 [3] 8 9).votes.getD 0 zeroVote = fcC5.votes.getD 0 zeroVote :=
  ⟨(processAttestation_growth fcC5 [3] 8 9).1 (by decide),
   (processAttestation_growth fcC5 [3] 8 9).2.1 2 (by decide) (by decide),
   (processAttestation_growth fcC5 [3] 8 9).2.2 0 (by decide) (by decide)⟩

/-- C1, counterexample: on `fcC1` the only vote moves to a root outside the
index map, so `computeDeltas` yields a negative delta for the sole node and
`applyWeightChanges` fails — but `Head` has already swapped the promoted
vote vector in, so it returns an error with a changed vote vector. -/
theorem head_atomicity_counterexample : ¬ ClaimC1 := by
  intro h
  have hc := h fcC1 0 1 [5] 0 .negativeWeight (by decide)
  exact absurd hc.1 (by decide)

/-- C1, amended: the actual swap discipline of `Head` — the vote vector is
replaced by the promoted vote vector of `computeDeltas` unconditionally
(compute_deltas is total), while the balance snapshot (and store) are
swapped in exactly when `applyWeightChanges` succeeds, even if head
selection then fails; when `applyWeightChanges` fails, `Head` returns its
error and the balance snapshot is unchanged. -/
theorem head_swap_discipline (f : ForkChoice) (fe : Nat) (jr : Root) (bal : List Nat)
    (je : Nat) :
    (Head f fe jr bal je).2.votes =
      (computeDeltas f.store.nodeIndices f.votes f.balances bal).2 ∧
    (∀ e, applyWeightChanges f.store je fe
          (computeDeltas f.store.nodeIndices f.votes f.balances bal).1 = .error e →
      (Head f fe jr bal je).2.balances = f.balances ∧
      (Head f fe jr bal je).1 = .error e) ∧
    (∀ s, applyWeightChanges f.store je fe
          (computeDeltas f.store.nodeIndices f.votes f.balances bal).1 = .ok s →
      (Head f fe jr bal je).2.balances = bal ∧
      (Head f fe jr bal je).2.store = s) := by
  refine ⟨?_, ?_, ?_⟩
  · cases hA : applyWeightChanges f.store je fe
        (computeDeltas f.store.nodeIndices f.votes f.balances bal).1 with
    | error e => simp [Head, hA]
    | ok s =>
      cases hS : shead s jr with
      | error e => simp [Head, hA, hS]
      | ok root => simp [Head, hA, hS]
  · intro e hA
    simp [Head, hA]
  · intro s hA
    cases hS : shead s jr with
    | error e => simp [Head, hA, hS]
    | ok root => simp [Head, hA, hS]

/-- C1, witness: on `fcC1`, `applyWeightChanges` concretely fails with
`negativeWeight`, and the balance snapshot of the post-call state is the
unchanged pre-call snapshot `[5]`. -/
theorem head_swap_discipline_witness :
    (Head fcC1 0 1 [5] 0).2.balances = fcC1.balances ∧
    (Head fcC1 0 1 [5] 0).1 = .error .negativeWeight :=
  (head_swap_discipline fcC1 0 1 [5] 0).2.1 .negativeWeight (by decide)

end Protoarray

namespace Metrics

theorem tallyUpdate_countSum (ce : Nat) (c : Counts) (v : Validator) (bal : Nat) :
    countSum (tallyUpdate ce c v bal) = countSum c + 1 := by
  unfold tallyUpdate
  split_ifs <;> simp [countSum] <;> omega

theorem tallyGo_countSum (ce : Nat) (balances : List Nat) :
    ∀ (vs : List Validator) (i : Nat) (c c' : Counts),
      tallyGo ce balances vs i c = some c' → countSum c' = countSum c + vs.length := by
  intro vs
  induction vs with
  | nil =>
    intro i c c' h
    simp only [tallyGo, Option.some.injEq] at h
    rw [← h]
    simp
  | cons v vs ih =>
    intro i c c' h
    cases hb : balances[i]? with
    | none => simp [tallyGo, hb] at h
    | some bal =>
      simp only [tallyGo, hb] at h
      have := ih (i + 1) (tallyUpdate ce c v bal) c' h
      rw [this, tallyUpdate_countSum]
      simp only [List.length_cons]
      omega

/-- C9: the six-way classification of validators in `reportEpochMetrics` is a
partition — on any state where the report succeeds, the first six emitted
gauges are exactly the six `validator_count` values and they sum to the
total number of validators in the registry. -/
theorem validator_count_partition (s : BeaconState) (out : List (String × Int))
    (h : reportEpochMetrics s = some out) :
    (out.take 6).map Prod.fst =
      ["validator_count/Pending", "validator_count/Active", "validator_count/Exiting",
       "validator_count/Exited", "validator_count/Slashing", "validator_count/Slashed"] ∧
    ((out.take 6).map Prod.snd).sum = (s.validators.length : Int) := by
  obtain ⟨c, hc, hout⟩ := Option.map_eq_some'.mp h
  have hsum := tallyGo_countSum (currentEpoch s) s.balances s.validators 0 initCounts c hc
  rw [← hout]
  rw [List.take_append_of_le_length (by simp)]
  refine ⟨by simp, ?_⟩
  simp only [countSum, initCounts] at hsum
  simp only [List.take, List.map_cons, List.map_nil, List.sum_cons, List.sum_nil]
  omega

/-- C9, witness: on `stC9` (one active, one slashing validator) the six
reported counts sum to 2, the registry size. -/
theorem validator_count_partition_witness :
    (outC9.take 6).map Prod.fst =
      ["validator_count/Pending", "validator_count/Active", "validator_count/Exiting",
       "validator_count/Exited", "validator_count/Slashing", "validator_count/Slashed"] ∧
    ((outC9.take 6).map Prod.snd).sum = (stC9.validators.length : Int) :=
  validator_count_partition stC9 outC9 (by decide)

/-- C8, counterexample: on `stC8` the finalized checkpoint is present but a
balance lookup fails, so `reportEpochMetrics` returns early and emits no
gauges at all, refuting the claim as universally stated. -/
theorem reportEpochMetrics_counterexample : ¬ ClaimC8 := by
  intro h
  obtain ⟨out, hout, -⟩ := h stC8 ⟨0, []⟩ rfl
  have hnone : reportEpochMetrics stC8 = none := by decide
  rw [hnone] at hout
  exact Option.noConfusion hout

/-- C8, amended: provided `reportEpochMetrics` does not return early (every
validator index has a balance entry, so the report succeeds), the emitted
gauges contain `beacon_finalized_epoch` set to the finalized checkpoint's
epoch and `beacon_finalized_root` set to the low 64 bits of its root, and
analogously the current-justified and previous-justified epoch and root
gauges from their checkpoints; all emitted values are integers. -/
theorem reportEpochMetrics_checkpoint_gauges (s : BeaconState) (out : List (String × Int))
    (h : reportEpochMetrics s = some out) :
    (∀ cp, s.finalizedCheckpoint = some cp →
      ("beacon_finalized_epoch", (cp.epoch : Int)) ∈ out ∧
      ("beacon_finalized_root", bytesToLowInt64 cp.root) ∈ out) ∧
    (∀ cp, s.currentJustifiedCheckpoint = some cp →
      ("beacon_current_justified_epoch", (cp.epoch : Int)) ∈ out ∧
      ("beacon_current_justified_root", bytesToLowInt64 cp.root) ∈ out) ∧
    (∀ cp, s.previousJustifiedCheckpoint = some cp →
      ("beacon_previous_justified_epoch", (cp.epoch : Int)) ∈ out ∧
      ("beacon_previous_justified_root", bytesToLowInt64 cp.root) ∈ out) := by
  obtain ⟨c, hc, hout⟩ := Option.map_eq_some'.mp h
  subst hout
  refine ⟨?_, ?_, ?_⟩ <;> intro cp hcp <;>
    constructor <;>
    simp [checkpointGauges, hcp, List.mem_append]

/-- C8, witness: on `stC8w` all three checkpoints are present and the report
succeeds; the finalized gauges appear with the concrete epoch 1 and the
low-64-bit value of root `[255]`. -/
theorem reportEpochMetrics_checkpoint_gauges_witness :
    ("beacon_finalized_epoch", ((1 : Nat) : Int)) ∈ outC8w ∧
    ("beacon_finalized_root", bytesToLowInt64 [255]) ∈ outC8w :=
  (reportEpochMetrics_checkpoint_gauges stC8w outC8w (by decide)).1 ⟨1, [255]⟩ rfl

end Metrics

theorem toInt64_of_lt (x : Nat) (h : x < 2 ^ 63) : toInt64 x = (x : Int) := if_pos h

theorem wrapInt64_eq_self (x : Int) (h1 : -(2 ^ 63) ≤ x) (h2 : x < 2 ^ 63) :
    wrapInt64 x = x := by
  unfold wrapInt64
  rw [Int.emod_eq_of_lt (by omega) (by omega)]
  omega

namespace Slashing

theorem mark_latestEpochWritten (ws : Nat) (h : AttestationHistory) (se te : Nat) :
    (markAttestationForTargetEpoch ws h se te).latestEpochWritten =
      if te > h.latestEpochWritten then te else h.latestEpochWritten := by
  unfold markAttestationForTargetEpoch
  split
  · rfl
  · rfl

theorem mark_targetToSource_head (ws : Nat) (h : AttestationHistory) (se te : Nat) :
    ∃ rest, (markAttestationForTargetEpoch ws h se te).targetToSource =
      (te % ws, se) :: rest := by
  unfold markAttestationForTargetEpoch
  split
  · exact ⟨_, rfl⟩
  · exact ⟨_, rfl⟩

/-- C10, counterexample: the bound check of `safeTargetToSource` converts
through Go `int`, which wraps for epochs of 2^63 and beyond, so the
round-trip fails there: with period 1, an empty history and target epoch
2^63, the lookup after marking returns `FAR_FUTURE_EPOCH`, not the source. -/
theorem mark_lookup_counterexample : ¬ ClaimC10 := by
  intro h
  have hc := h 1 (by decide) ⟨[], 0⟩ 7 (2 ^ 63) (by decide)
  exact absurd hc.1 (by decide)

/-- C10, amended: provided the weak-subjectivity period, the target epoch
and the history's latest written epoch are all below 2^63 (so the signed
conversions in `safeTargetToSource` do not wrap) and the target epoch is at
least the latest written epoch minus the period, marking an attestation and
then looking its target epoch up returns the source epoch — and, whenever
the source epoch is not `FAR_FUTURE_EPOCH`, no longer `FAR_FUTURE_EPOCH`. -/
theorem mark_then_lookup (ws : Nat) (h : AttestationHistory) (sourceEpoch targetEpoch : Nat)
    (hws : ws < 2 ^ 63) (ht : targetEpoch < 2 ^ 63) (hl : h.latestEpochWritten < 2 ^ 63)
    (hcond : (h.latestEpochWritten : Int) - (ws : Int) ≤ (targetEpoch : Int)) :
    safeTargetToSource ws (markAttestationForTargetEpoch ws h sourceEpoch targetEpoch)
        targetEpoch = sourceEpoch ∧
    (sourceEpoch ≠ farFutureEpoch →
      safeTargetToSource ws (markAttestationForTargetEpoch ws h sourceEpoch targetEpoch)
          targetEpoch ≠ farFutureEpoch) := by
  have hLEW := mark_latestEpochWritten ws h sourceEpoch targetEpoch
  obtain ⟨rest, hTTS⟩ := mark_targetToSource_head ws h sourceEpoch targetEpoch
  have hLEWlt :
      (markAttestationForTargetEpoch ws h sourceEpoch targetEpoch).latestEpochWritten <
        2 ^ 63 := by
    rw [hLEW]; split <;> omega
  have hnle :
      ¬ targetEpoch >
        (markAttestationForTargetEpoch ws h sourceEpoch targetEpoch).latestEpochWritten := by
    rw [hLEW]; split <;> omega
  have hcond2 : ¬ toInt64 targetEpoch <
      wrapInt64 (toInt64
        (markAttestationForTargetEpoch ws h sourceEpoch targetEpoch).latestEpochWritten -
        toInt64 ws) := by
    rw [toInt64_of_lt _ ht, toInt64_of_lt _ hLEWlt, toInt64_of_lt _ hws,
      wrapInt64_eq_self _ (by omega) (by omega), hLEW]
    split <;> omega
  have key : safeTargetToSource ws
      (markAttestationForTargetEpoch ws h sourceEpoch targetEpoch) targetEpoch =
      sourceEpoch := by
    unfold safeTargetToSource
    rw [if_neg (not_or.mpr ⟨hnle, hcond2⟩), hTTS]
    simp [mapRead, List.lookup]
  exact ⟨key, fun hs hc => hs (key.symm.trans hc)⟩

/-- C10, witness: with the mainnet weak-subjectivity period 54000, history
at latest written epoch 10, source 3 and target 12, the round-trip returns
3, which is not `FAR_FUTURE_EPOCH`. -/
theorem mark_then_lookup_witness :
    safeTargetToSource 54000 (markAttestationForTargetEpoch 54000 ⟨[], 10⟩ 3 12) 12 = 3 ∧
    safeTargetToSource 54000 (markAttestationForTargetEpoch 54000 ⟨[], 10⟩ 3 12) 12 ≠
      farFutureEpoch := by
  have h := mark_then_lookup 54000 ⟨[], 10⟩ 3 12 (by decide) (by decide) (by decide)
    (by decide)
  exact ⟨h.1, h.2 (by decide)⟩

end Slashing
